import Mathlib

/-!
Verification of the exam-paper parsing pipeline (src/main.js).

The pipeline is a pure text transform: question-paper text and mark-scheme
text are split into lines, segmented into numbered questions and lettered
sub-questions, joined by a `number-letter` key, and enriched with a coding
classification and a starter-code scaffold.  Embedded Java classes and
UML-style class boxes are extracted from the question paper.

Text is modelled as `List Char` (one entry per UTF-16-ish code point; all
inputs of interest are ASCII).  JavaScript regexes are modelled by explicit
matcher functions; each matcher's doc comment names the regex it embeds.
JavaScript `String.prototype.toLowerCase` is modelled per-character.
-/

/-- Convert a string literal to the `List Char` text representation. -/
def s2l (s : String) : List Char := s.data

/-- The JavaScript whitespace class `\s` (also used by `String.trim`):
space, tab, LF, VT, FF, CR, NBSP and the Unicode space separators. -/
def isJsSpace (c : Char) : Bool :=
  c = ' ' || c = '\t' || c = '\n' || c = '\x0b' || c = '\x0c' || c = '\r' ||
  c = '\u00A0' || c = '\u1680' ||
  c = '\u2000' || c = '\u2001' || c = '\u2002' || c = '\u2003' ||
  c = '\u2004' || c = '\u2005' || c = '\u2006' || c = '\u2007' ||
  c = '\u2008' || c = '\u2009' || c = '\u200A' ||
  c = '\u2028' || c = '\u2029' || c = '\u202F' || c = '\u205F' ||
  c = '\u3000' || c = '\uFEFF'

/-- JavaScript `String.prototype.trim`. -/
def jsTrim (l : List Char) : List Char :=
  ((l.dropWhile isJsSpace).reverse.dropWhile isJsSpace).reverse

/-- JavaScript `text.split(/\r?\n/)`: split at each `\n`, consuming a
directly preceding `\r`; a lone `\r` does not split. -/
def splitLines : List Char → List (List Char)
  | [] => [[]]
  | '\r' :: '\n' :: rest => [] :: splitLines rest
  | '\n' :: rest => [] :: splitLines rest
  | c :: rest =>
    match splitLines rest with
    | [] => [[c]]
    | l :: ls => (c :: l) :: ls

/-- JavaScript `lines.join('\n')`. -/
def joinNL : List (List Char) → List Char
  | [] => []
  | [l] => l
  | l :: rest => l ++ '\n' :: joinNL rest

/-- Case-sensitive "text starts with pattern" (`pat` first argument). -/
def startsWithL : List Char → List Char → Bool
  | [], _ => true
  | _ :: _, [] => false
  | p :: ps, c :: cs => (p == c) && startsWithL ps cs

/-- Case-insensitive "text starts with pattern", per-character lowercasing
(models matching under the regex `i` flag for ASCII patterns). -/
def startsWithCI : List Char → List Char → Bool
  | [], _ => true
  | _ :: _, [] => false
  | p :: ps, c :: cs => (p.toLower == c.toLower) && startsWithCI ps cs

/-- Left-to-right scan: try the position matcher `f` on every suffix of the
text, returning the first position (counted from `i`) where it fires.
This models unanchored JavaScript regex search, which tries each start
position in increasing order. -/
def scanFrom (f : List Char → Option α) (i : Nat) : List Char → Option (Nat × α)
  | [] => (f []).map fun a => (i, a)
  | c :: rest =>
    match f (c :: rest) with
    | some a => some (i, a)
    | none => scanFrom f (i + 1) rest

/-- Maximal run of characters satisfying `p`, plus the remainder. -/
def runSplit (p : Char → Bool) (l : List Char) : List Char × List Char :=
  (l.takeWhile p, l.dropWhile p)

/-- Regex `\s+`: require at least one whitespace character, return the
text after the (greedily consumed) whitespace run. -/
def wsPlus (l : List Char) : Option (List Char) :=
  if l.takeWhile isJsSpace = [] then none else some (l.dropWhile isJsSpace)

/-- The regex word class `\w` = `[A-Za-z0-9_]`. -/
def isWordChar (c : Char) : Bool := c.isAlphanum || c = '_'

/-- Line terminators, which the regex `.` (no `s` flag) does not match. -/
def isLineTerm (c : Char) : Bool :=
  c = '\n' || c = '\r' || c = '\u2028' || c = '\u2029'

/-- Numeric value of a digit string; models `parseInt(s, 10)` on the
all-digit strings produced by the question-number matcher. -/
def digitsVal (l : List Char) : Nat :=
  l.foldl (fun a c => a * 10 + (c.toNat - 48)) 0

/-- JavaScript `(line.match(/X/g) || []).length` for a single character:
count of occurrences of `c` in `l`. -/
def countChar (c : Char) (l : List Char) : Nat :=
  (l.filter (fun x => x == c)).length

-- ============== SECTION EXTRACTOR ==============

/-- JavaScript `text.indexOf(pat, s)`: least index `≥ s` where `pat`
occurs, as an `Option`. -/
def indexOfFrom (pat t : List Char) (s : Nat) : Option Nat :=
  (scanFrom (fun l => if startsWithL pat l then some () else none) s (t.drop s)).map (·.1)

/-- JavaScript `String.prototype.toLowerCase`, modelled per-character. -/
def lowerCase (t : List Char) : List Char := t.map Char.toLower

/-- Embeds `extractOptionD` (src/main.js:532): lowercase the text, find the first
occurrence of "option d"; if absent return the input unchanged, otherwise
slice from there to the first occurrence of "end of option d" at or after
that index (or to the end of the text if none). -/
def extractOptionD (t : List Char) : List Char :=
  let lower := lowerCase t
  match indexOfFrom (s2l ("option d")) lower 0 with
  | none => t
  | some s =>
    match indexOfFrom (s2l ("end of option d")) lower s with
    | none => t.drop s
    | some e => (t.drop s).take (e - s)

-- ============== QUESTION SEGMENTER ==============

/-- The main-question line pattern `/^(\d{1,2})\.\s*$/` (src/main.js:693):
one or two digits, a period, then only whitespace; returns the digit
group.  Greedy `\d{1,2}` prefers two digits, and backtracking to one digit
succeeds only when the second character is the period. -/
def matchMainQ (line : List Char) : Option (List Char) :=
  match line with
  | c1 :: tail =>
    if c1.isDigit then
      match tail with
      | c2 :: tail2 =>
        if c2.isDigit then
          match tail2 with
          | '.' :: ws => if ws.all isJsSpace then some [c1, c2] else none
          | _ => none
        else if c2 = '.' then
          if tail2.all isJsSpace then some [c1] else none
        else none
      | [] => none
    else none
  | [] => none

/-- One raw top-level question: its number string and body text. -/
structure RawQ where
  number : List Char
  text : List Char
  deriving DecidableEq, Repr

/-- Line-by-line grouping loop of `splitMainQuestions` (src/main.js:695):
a matching line closes the current question and opens a new one; other
lines are appended to the current question when one is open. -/
def smqAux : List (List Char) → Option (List Char × List (List Char)) →
    List (List Char × List (List Char))
  | [], cur =>
    match cur with
    | some c => [c]
    | none => []
  | line :: rest, cur =>
    match matchMainQ line with
    | some num =>
      (match cur with
       | some c => [c]
       | none => []) ++ smqAux rest (some (num, []))
    | none =>
      match cur with
      | some (n, ls) => smqAux rest (some (n, ls ++ [line]))
      | none => smqAux rest none

/-- Embeds `splitMainQuestions` (src/main.js:688). -/
def splitMainQuestions (t : List Char) : List RawQ :=
  (smqAux (splitLines t) none).map fun p =>
    { number := p.1, text := jsTrim (joinNL p.2) }

/-- The sub-question start pattern `/^\(([a-z])\)\s*/i` (src/main.js:718):
returns the letter (original case) and the line with the matched prefix
removed and trimmed, as `line.replace(subPattern, '').trim()` produces. -/
def matchSubStart (line : List Char) : Option (Char × List Char) :=
  match line with
  | '(' :: c :: ')' :: rest =>
    if c.isAlpha then some (c, jsTrim (rest.dropWhile isJsSpace)) else none
  | _ => none

/-- The marks pattern `/\[(\d+)(?:\s*max)?\]/` tried at one position:
`[`, a maximal nonempty digit run, then either `]` directly or a
whitespace run followed by the literal `max]`.  (Backtracking cannot
produce any other shape: shortening the digit or whitespace runs places a
digit or whitespace character where `]`, `max` or a digit boundary is
required.) -/
def matchMarksAt (l : List Char) : Option Nat :=
  match l with
  | b :: rest =>
    if b = '[' then
      if rest.takeWhile Char.isDigit = [] then none
      else
        let after := rest.dropWhile Char.isDigit
        if after.head? = some ']' then some (digitsVal (rest.takeWhile Char.isDigit))
        else if startsWithL (s2l ("max]")) (after.dropWhile isJsSpace) then
          some (digitsVal (rest.takeWhile Char.isDigit))
        else none
    else none
  | [] => none

/-- First (leftmost) marks annotation in the text, as
`text.match(marksPattern)` finds it (src/main.js:735). -/
def searchMarks (t : List Char) : Option Nat :=
  (scanFrom matchMarksAt 0 t).map (·.2)

/-- One parsed sub-question: letter (lowercased), trimmed text, parsed
marks. -/
structure SubQ where
  letter : Char
  text : List Char
  marks : Option Nat
  deriving DecidableEq, Repr

/-- Line-by-line grouping loop of `parseSubQuestions` (src/main.js:721). -/
def psqAux : List (List Char) → Option (Char × List (List Char)) →
    List (Char × List (List Char))
  | [], cur =>
    match cur with
    | some c => [c]
    | none => []
  | line :: rest, cur =>
    match matchSubStart line with
    | some (c, rem) =>
      (match cur with
       | some p => [p]
       | none => []) ++ psqAux rest (some (c, [rem]))
    | none =>
      match cur with
      | some (ch, ls) => psqAux rest (some (ch, ls ++ [line]))
      | none => psqAux rest none

/-- Embeds `parseSubQuestions` (src/main.js:713).  The `isMarkScheme` flag is
accepted and ignored, exactly as in the source. -/
def parseSubQuestions (t : List Char) (isMarkScheme : Bool) : List SubQ :=
  (psqAux (splitLines t) none).map fun p =>
    let fullText := jsTrim (joinNL p.2)
    { letter := p.1.toLower, text := fullText, marks := searchMarks fullText }

-- ============== CLASSIFICATION ==============

/-- Word-boundary check `\b` before a match: start of text or a preceding
non-word character. -/
def boundaryB (prev : Option Char) : Bool :=
  match prev with
  | none => true
  | some c => !isWordChar c

/-- Word-boundary check `\b` after a match: end of text or a following
non-word character. -/
def afterB (l : List Char) : Bool :=
  match l with
  | [] => true
  | c :: _ => !isWordChar c

/-- Whole word `w` (case-insensitive) matches at the head of `l`, where
`prev` is the character immediately before `l` in the full text. -/
def wordHereCI (w : List Char) (prev : Option Char) (l : List Char) : Bool :=
  boundaryB prev && startsWithCI w l && afterB (l.drop w.length)

/-- Search for a whole-word, case-insensitive occurrence anywhere
(regex `/\bw\b/i.test`). -/
def hasWordScan (w : List Char) (prev : Option Char) : List Char → Bool
  | [] => false
  | c :: r => wordHereCI w prev (c :: r) || hasWordScan w (some c) r

/-- Dot-region scan for `.*`: look for any of the whole words `ws2` at an offset
reachable from here without crossing a line terminator (regex
`.*\b(w2a|w2b)\b` after the first word). -/
def sameLineScan (ws2 : List (List Char)) (prev : Option Char) : List Char → Bool
  | [] => false
  | c :: r =>
    ws2.any (fun w => wordHereCI w prev (c :: r)) ||
    (!isLineTerm c && sameLineScan ws2 (some c) r)

/-- Test for `/\bw1\b.*\b(ws2…)\b/i`: a whole-word `w1` followed, with no
intervening line terminator, by one of the whole words in `ws2`. -/
def wordThenScan (w1 : List Char) (ws2 : List (List Char)) (prev : Option Char) :
    List Char → Bool
  | [] => false
  | c :: r =>
    (wordHereCI w1 prev (c :: r) &&
      (match (c :: r).drop (w1.length - 1) with
       | lc :: rest2 => sameLineScan ws2 (some lc) rest2
       | [] => false)) ||
    wordThenScan w1 ws2 (some c) r

/-- Embeds `detectCodingQuestion` (src/main.js:744): true when the text matches
any of `/\bconstruct\b.*\b(code|method|class)\b/i`,
`/\bwrite\b.*\b(code|method)\b/i`, `/\bcreate\b.*\bmethod\b/i`,
`/\bimplement\b/i`. -/
def detectCodingQuestion (t : List Char) : Bool :=
  wordThenScan (s2l ("construct")) [s2l ("code"), s2l ("method"), s2l ("class")] none t ||
  wordThenScan (s2l ("write")) [s2l ("code"), s2l ("method")] none t ||
  wordThenScan (s2l ("create")) [s2l ("method")] none t ||
  hasWordScan (s2l ("implement")) none t

-- ============== STARTER-CODE GENERATOR ==============

/-- Position matcher for `/accessor\s+method\s+(\w+)\s*\(\)/i`; the
captured group is the (maximal) word run, which greedy matching forces. -/
def matchAccessor1 (l : List Char) : Option (List Char) :=
  if startsWithCI (s2l ("accessor")) l then
    match wsPlus (l.drop 8) with
    | some l2 =>
      if startsWithCI (s2l ("method")) l2 then
        match wsPlus (l2.drop 6) with
        | some l3 =>
          let w := l3.takeWhile isWordChar
          if w = [] then none
          else if startsWithL (s2l ("()")) ((l3.dropWhile isWordChar).dropWhile isJsSpace)
          then some w else none
        | none => none
      else none
    | none => none
  else none

/-- Position matcher for `/method\s+(get\w+)\s*\(\)/i`: the captured group
is the word run, which must extend the literal `get` by at least one word
character. -/
def matchMethodGet (l : List Char) : Option (List Char) :=
  if startsWithCI (s2l ("method")) l then
    match wsPlus (l.drop 6) with
    | some l2 =>
      let w := l2.takeWhile isWordChar
      if startsWithCI (s2l ("get")) w && w.length ≥ 4 &&
          startsWithL (s2l ("()")) ((l2.dropWhile isWordChar).dropWhile isJsSpace)
      then some w else none
    | none => none
  else none

/-- Position matcher for `/mutator\s+method\s+(\w+)\s*\(/i`. -/
def matchMutator1 (l : List Char) : Option (List Char) :=
  if startsWithCI (s2l ("mutator")) l then
    match wsPlus (l.drop 7) with
    | some l2 =>
      if startsWithCI (s2l ("method")) l2 then
        match wsPlus (l2.drop 6) with
        | some l3 =>
          let w := l3.takeWhile isWordChar
          if w = [] then none
          else if startsWithL (s2l ("(")) ((l3.dropWhile isWordChar).dropWhile isJsSpace)
          then some w else none
        | none => none
      else none
    | none => none
  else none

/-- Position matcher for `/method\s+(set\w+)\s*\(/i`. -/
def matchMethodSet (l : List Char) : Option (List Char) :=
  if startsWithCI (s2l ("method")) l then
    match wsPlus (l.drop 6) with
    | some l2 =>
      let w := l2.takeWhile isWordChar
      if startsWithCI (s2l ("set")) w && w.length ≥ 4 &&
          startsWithL (s2l ("(")) ((l2.dropWhile isWordChar).dropWhile isJsSpace)
      then some w else none
    | none => none
  else none

/-- Position matcher for `/method\s+(\w+)\s*\(\)/i`. -/
def matchMethodGeneric (l : List Char) : Option (List Char) :=
  if startsWithCI (s2l ("method")) l then
    match wsPlus (l.drop 6) with
    | some l2 =>
      let w := l2.takeWhile isWordChar
      if w = [] then none
      else if startsWithL (s2l ("()")) ((l2.dropWhile isWordChar).dropWhile isJsSpace)
      then some w else none
    | none => none
  else none

/-- Scan for a case-insensitive `extends` reachable without crossing a
line terminator (the `.*extends` tail of the class-with-extends regex). -/
def hasExtSameLine : List Char → Bool
  | [] => false
  | c :: rest =>
    startsWithCI (s2l ("extends")) (c :: rest) ||
    (!isLineTerm c && hasExtSameLine rest)

/-- Greedy group choice for `(\w+).*extends`: try the longest prefix of
the word run first, shrinking only when no same-line `extends` follows —
exactly the backtracking order of the greedy `\w+`. -/
def pickExtAux (run r : List Char) : Nat → Option (List Char)
  | 0 => none
  | k + 1 =>
    if hasExtSameLine (run.drop (k + 1) ++ r) then some (run.take (k + 1))
    else pickExtAux run r k

/-- Position matcher for `/class\s+(\w+).*extends/i`. -/
def matchClassExt (l : List Char) : Option (List Char) :=
  if startsWithCI (s2l ("class")) l then
    match wsPlus (l.drop 5) with
    | some l2 =>
      let run := l2.takeWhile isWordChar
      if run = [] then none
      else pickExtAux run (l2.dropWhile isWordChar) run.length
    | none => none
  else none

/-- Position matcher for `/class\s+(\w+)/i`. -/
def matchClassPlain (l : List Char) : Option (List Char) :=
  if startsWithCI (s2l ("class")) l then
    match wsPlus (l.drop 5) with
    | some l2 =>
      let run := l2.takeWhile isWordChar
      if run = [] then none else some run
    | none => none
  else none

/-- Unanchored search with a position matcher: first position wins
(JavaScript `text.match(regex)`), returning the captured group. -/
def searchPat (m : List Char → Option (List Char)) (t : List Char) : Option (List Char) :=
  (scanFrom m 0 t).map (·.2)

/-- JavaScript `a || b` on two possibly-null match results. -/
def orO (a b : Option α) : Option α :=
  match a with
  | some x => some x
  | none => b

/-- The scaffold string `// Write your NAME() method below`. -/
def methodScaffold (w : List Char) : List Char :=
  s2l ("// Write your ") ++ w ++ s2l ("() method below\n\n")

/-- The scaffold string `// Write the NAME class below`. -/
def classScaffold (w : List Char) : List Char :=
  s2l ("// Write the ") ++ w ++ s2l (" class below\n\n")

/-- Embeds `extractStarterCode` (src/main.js:754): ordered pattern chain —
accessor (two regexes), mutator (two regexes), generic method,
class-with-extends, plain class — first match produces a one-line comment
scaffold; otherwise the generic scaffold.  The `examCode` argument is
accepted and ignored, exactly as in the source. -/
def extractStarterCode (questionText examCode : List Char) : List Char :=
  match orO (searchPat matchAccessor1 questionText) (searchPat matchMethodGet questionText) with
  | some w => methodScaffold w
  | none =>
    match orO (searchPat matchMutator1 questionText) (searchPat matchMethodSet questionText) with
    | some w => methodScaffold w
    | none =>
      match searchPat matchMethodGeneric questionText with
      | some w => methodScaffold w
      | none =>
        match searchPat matchClassExt questionText with
        | some w => classScaffold w
        | none =>
          match searchPat matchClassPlain questionText with
          | some w => classScaffold w
          | none => s2l ("// Write your code below\n\n")

-- ============== CODE / DIAGRAM EXTRACTOR ==============

/-- One extracted or synthesized class: name plus source text. -/
structure ClassArtifact where
  name : List Char
  code : List Char
  deriving DecidableEq, Repr

/-- The class-start pattern `/^public\s+class\s+(\w+)/` (src/main.js:472),
applied to the trimmed line; returns the name group. -/
def matchClassStart (trimmed : List Char) : Option (List Char) :=
  if startsWithL (s2l ("public")) trimmed then
    match wsPlus (trimmed.drop 6) with
    | some l2 =>
      if startsWithL (s2l ("class")) l2 then
        match wsPlus (l2.drop 5) with
        | some l3 =>
          let w := l3.takeWhile isWordChar
          if w = [] then none else some w
        | none => none
      else none
    | none => none
  else none

/-- Flush an open class when a new class header appears
(src/main.js:474): kept only if it has at least one line. -/
def flushOpen : Option (List Char × List (List Char)) → List ClassArtifact
  | none => []
  | some (n, ls) => if ls.length > 0 then [⟨n, joinNL ls⟩] else []

/-- Flush the open class at end of input (src/main.js:500): kept only if
it has more than three lines. -/
def flushEnd : Option (List Char × List (List Char)) → List ClassArtifact
  | none => []
  | some (n, ls) => if ls.length > 3 then [⟨n, joinNL ls⟩] else []

/-- Line loop of `extractJavaClassesStructured` (src/main.js:461): a
`public class` header opens a block (flushing any previous one and
resetting the brace depth); while a block is open every line is appended
and the depth updated by the brace counts; the block closes and is
emitted when the depth is back to `≤ 0`, the block has at least two
lines, and the trimmed line is exactly a closing brace. -/
def ejcsAux : List (List Char) → Option (List Char × List (List Char)) → Int →
    List ClassArtifact
  | [], cur, _ => flushEnd cur
  | line :: rest, cur, depth =>
    let trimmed := jsTrim line
    let body := fun (c : List Char × List (List Char)) (d : Int) =>
      let ls2 := c.2 ++ [line]
      let d3 := d + (countChar '\x7b' line : Int) - (countChar '\x7d' line : Int)
      if d3 ≤ 0 ∧ ls2.length > 1 ∧ trimmed = ['\x7d'] then
        (⟨c.1, joinNL ls2⟩ : ClassArtifact) :: ejcsAux rest none 0
      else ejcsAux rest (some (c.1, ls2)) d3
    match matchClassStart trimmed with
    | some nm => flushOpen cur ++ body (nm, []) 0
    | none =>
      match cur with
      | some c => body c depth
      | none => ejcsAux rest none depth

/-- Embeds `extractJavaClassesStructured` (src/main.js:461). -/
def extractJavaClassesStructured (t : List Char) : List ClassArtifact :=
  ejcsAux (splitLines t) none 0

/-- One UML attribute: visibility keyword, name, declared type. -/
structure UMLAttr where
  visibility : List Char
  name : List Char
  type : List Char
  deriving DecidableEq, Repr

/-- One detected UML class box. -/
structure UMLClass where
  name : List Char
  attributes : List UMLAttr
  methods : List (List Char)
  exampleData : List (List Char)
  deriving DecidableEq, Repr

/-- The class-name test (src/main.js:326): `/^[A-Z][a-zA-Z]+$/` with no
space and length strictly between 2 and 20. -/
def classNameTest (l : List Char) : Bool :=
  match l with
  | c :: rest =>
    (c.isUpper && rest ≠ [] && rest.all Char.isAlpha) &&
    !(l.contains ' ') && l.length > 2 && l.length < 20
  | [] => false

/-- The UML attribute pattern `/^([-+])\s*(\w+)\s*:\s*(\w+)/`
(src/main.js:357): sign, optional whitespace, name word, optional
whitespace, colon, optional whitespace, type word. -/
def umlAttrMatch (l : List Char) : Option (Char × List Char × List Char) :=
  match l with
  | c :: rest =>
    if c = '-' ∨ c = '+' then
      let l2 := rest.dropWhile isJsSpace
      let nm := l2.takeWhile isWordChar
      if nm = [] then none
      else
        match (l2.dropWhile isWordChar).dropWhile isJsSpace with
        | ':' :: r4 =>
          let ty := (r4.dropWhile isJsSpace).takeWhile isWordChar
          if ty = [] then none else some (c, nm, ty)
        | _ => none
    else none
  | [] => none

/-- The attribute test `/^[-+]\s*\w+\s*:\s*\w+/` (src/main.js:328). -/
def umlAttrTest (l : List Char) : Bool := (umlAttrMatch l).isSome

/-- Position matcher for `/example\s+\w+\s+object/i` (src/main.js:342). -/
def matchExampleObj (l : List Char) : Option Unit :=
  if startsWithCI (s2l ("example")) l then
    match wsPlus (l.drop 7) with
    | some l2 =>
      if l2.takeWhile isWordChar = [] then none
      else
        match wsPlus (l2.dropWhile isWordChar) with
        | some r2 => if startsWithCI (s2l ("object")) r2 then some () else none
        | none => none
    | none => none
  else none

/-- Unanchored test for the example-object pattern. -/
def exampleObjTest (l : List Char) : Bool := (scanFrom matchExampleObj 0 l).isSome

/-- The camel-case test `/^[A-Z][a-z]+[A-Z]/` (src/main.js:346). -/
def camelTest (l : List Char) : Bool :=
  match l with
  | c :: rest =>
    c.isUpper && rest.takeWhile Char.isLower ≠ [] &&
    (match rest.dropWhile Char.isLower with
     | d :: _ => d.isUpper
     | [] => false)
  | [] => false

/-- The UML method-line test
`/^[-+]\s*(\w+\s*\(|constructor|accessor|mutator)/i` (src/main.js:368). -/
def methodLineTest (l : List Char) : Bool :=
  match l with
  | c :: rest =>
    (c = '-' ∨ c = '+') &&
    (let l2 := rest.dropWhile isJsSpace
     (l2.takeWhile isWordChar ≠ [] &&
        startsWithL (s2l ("(")) ((l2.dropWhile isWordChar).dropWhile isJsSpace)) ||
     startsWithCI (s2l ("constructor")) l2 ||
     startsWithCI (s2l ("accessor")) l2 ||
     startsWithCI (s2l ("mutator")) l2)
  | [] => false

/-- Embeds `line.replace(/^[-+]\s*/, '')` (src/main.js:369). -/
def stripSign (l : List Char) : List Char :=
  match l with
  | c :: r => if c = '-' ∨ c = '+' then r.dropWhile isJsSpace else l
  | [] => []

/-- Inner example-data loop (src/main.js:343): walk the lookahead window,
collecting short data lines; a line starting with `-`, `+` or `(` breaks;
other rejected lines are skipped. -/
def collectExample : List (List Char) → List (List Char)
  | [] => []
  | l :: rest =>
    let d := jsTrim l
    if d ≠ [] ∧ ¬startsWithL (s2l ("-")) d ∧ ¬startsWithL (s2l ("+")) d ∧
        ¬startsWithL (s2l ("(")) d ∧ ¬camelTest d ∧ d.length < 30 then
      d :: collectExample rest
    else if startsWithL (s2l ("-")) d ∨ startsWithL (s2l ("+")) d ∨
        startsWithL (s2l ("(")) d then
      []
    else
      collectExample rest

/-- Close out the running UML class at a boundary (kept only when it has
at least one attribute), attaching the accumulated example data. -/
def flushUML (cur : Option UMLClass) (ex : List (List Char)) : List UMLClass :=
  match cur with
  | some c => if c.attributes ≠ [] then [{ c with exampleData := ex }] else []
  | none => []

/-- Line loop of `extractUMLDiagramsStructured` (src/main.js:315): a
standalone PascalCase line with an attribute line in the next 14 lines
starts a new class (flushing the previous one); otherwise the line may
add example data (when an `example … object` phrase occurs and a class is
open), an attribute, and/or a method to the open class. -/
def eudAux : List (List Char) → Option UMLClass → List (List Char) → List UMLClass
  | [], cur, ex => flushUML cur ex
  | line0 :: rest, cur, ex =>
    let line := jsTrim line0
    if classNameTest line ∧ (rest.take 14).any (fun l => umlAttrTest (jsTrim l)) then
      flushUML cur ex ++
        eudAux rest (some { name := line, attributes := [], methods := [], exampleData := [] }) []
    else
      let ex2 := if exampleObjTest line ∧ cur.isSome then ex ++ collectExample (rest.take 11) else ex
      let cur2 :=
        match cur, umlAttrMatch line with
        | some c, some (sign, nm, ty) =>
          some { c with attributes := c.attributes ++
            [({ visibility := if sign = '-' then s2l ("private") else s2l ("public"),
                name := nm, type := ty } : UMLAttr)] }
        | c, _ => c
      let cur3 :=
        match cur2 with
        | some c => if methodLineTest line then some { c with methods := c.methods ++ [stripSign line] } else some c
        | none => none
      eudAux rest cur3 ex2

/-- Embeds `extractUMLDiagramsStructured` (src/main.js:315). -/
def extractUMLDiagramsStructured (t : List Char) : List UMLClass :=
  eudAux (splitLines t) none []

/-- Embeds `convertUMLType` (src/main.js:677): lowercase lookup in the fixed
type map.  (The map's `String` key is unreachable: the lookup argument is
lowercased, so it can never equal `String`.) -/
def convertUMLType (umlType : List Char) : List Char :=
  let lower := lowerCase umlType
  if lower = s2l ("integer") then s2l ("int")
  else if lower = s2l ("real") then s2l ("double")
  else if lower = s2l ("boolean") then s2l ("boolean")
  else if lower = s2l ("char") then s2l ("char")
  else umlType

/-- Embeds `convertUMLToJavaSkeleton` (src/main.js:510): fields from the UML
attributes (types mapped), a no-argument constructor with a commented
body, and comments only otherwise. -/
def convertUMLToJavaSkeleton (uml : UMLClass) : List Char :=
  s2l ("public class ") ++ uml.name ++ s2l (" \x7b\n\n") ++
  s2l ("    // Instance variables\n") ++
  (uml.attributes.foldr (fun a acc =>
      s2l ("    private ") ++ convertUMLType a.type ++ [' '] ++ a.name ++ s2l (";\n") ++ acc) []) ++
  s2l ("\n    // Default constructor\n") ++
  s2l ("    public ") ++ uml.name ++ s2l ("() \x7b\n") ++
  s2l ("        // Initialize instance variables\n") ++
  s2l ("    \x7d\n") ++
  s2l ("\n    // Accessor and mutator methods go here\n") ++
  s2l ("    // (You need to write these as part of the questions)\n") ++
  s2l ("\n\x7d\n")

/-- The `classes` field of `extractStructuredExamInfo` (src/main.js:240):
verbatim Java classes, or skeletons synthesized from the UML diagrams
when no verbatim class was found and at least one diagram was. -/
def examInfoClasses (text : List Char) : List ClassArtifact :=
  let classes := extractJavaClassesStructured text
  let umls := extractUMLDiagramsStructured text
  if classes = [] ∧ umls ≠ [] then
    umls.map fun u => { name := u.name, code := convertUMLToJavaSkeleton u }
  else classes

-- ============== MARK-SCHEME JOINER / PIPELINE ==============

/-- The fixed fallback string used when no usable mark-scheme text is
found (src/main.js:225). -/
def sentinel : List Char := s2l ("Mark scheme not available.")

/-- The join key `` `${q.number}-${sub.letter}` `` (src/main.js:212). -/
def keyOf (num : List Char) (letter : Char) : List Char :=
  num ++ '-' :: letter :: []

/-- The `(key, sub-question)` pairs inserted into the mark-scheme map, in
insertion order (src/main.js:209): every question of the segmentation
(unfiltered), every sub-question in order. -/
def msSubsFrom (optDMS : List Char) : List (List Char × SubQ) :=
  (splitMainQuestions optDMS).flatMap fun q =>
    (parseSubQuestions q.text true).map fun sub => (keyOf q.number sub.letter, sub)

/-- The mark-scheme entries for a raw mark-scheme document: section
extraction followed by segmentation. -/
def msSubsOf (msText : List Char) : List (List Char × SubQ) :=
  msSubsFrom (extractOptionD msText)

/-- Models `Map.get` after the insertion loop: the most recently inserted value
for the key, i.e. the last entry in insertion order. -/
def msGet (entries : List (List Char × SubQ)) (k : List Char) : Option SubQ :=
  (entries.reverse.find? fun e => e.1 == k).map (·.2)

/-- Embeds `ms?.text || 'Mark scheme not available.'` (src/main.js:225):
JavaScript `||` takes the fallback when the entry is missing or its text
is the empty string (empty strings are falsy). -/
def joinMarkScheme (ms : Option SubQ) : List Char :=
  match ms with
  | some m => if m.text = [] then sentinel else m.text
  | none => sentinel

/-- Embeds `ms?.marks || sub.marks` (src/main.js:226): JavaScript `||` takes the
question paper's value when the entry is missing, its marks is null, or
its marks is the (falsy) number 0. -/
def joinMarks (ms : Option SubQ) (qpMarks : Option Nat) : Option Nat :=
  match ms with
  | some m =>
    match m.marks with
    | some n => if n = 0 then qpMarks else some n
    | none => qpMarks
  | none => qpMarks

/-- A fully annotated sub-question of the final model. -/
structure JoinedSub where
  letter : Char
  text : List Char
  marks : Option Nat
  markScheme : List Char
  isCoding : Bool
  starterCode : List Char
  deriving DecidableEq, Repr

/-- A question of the final model. -/
structure QuestionOut where
  number : List Char
  text : List Char
  subQuestions : List JoinedSub
  deriving DecidableEq, Repr

/-- The final structured model produced by one `parseExam` run: the
extracted class artifacts and the question list. -/
structure ParseResult where
  classes : List ClassArtifact
  questions : List QuestionOut
  deriving DecidableEq, Repr

/-- The merge of one question-paper sub-question with its mark-scheme
entry (src/main.js:220). -/
def joinSub (entries : List (List Char × SubQ)) (examCode : List Char)
    (num : List Char) (sub : SubQ) : JoinedSub :=
  let ms := msGet entries (keyOf num sub.letter)
  { letter := sub.letter
    text := sub.text
    marks := joinMarks ms sub.marks
    markScheme := joinMarkScheme ms
    isCoding := detectCodingQuestion sub.text
    starterCode := extractStarterCode sub.text examCode }

/-- Embeds `state.examCode` (src/main.js:201): the class codes joined with blank
lines. -/
def examCodeOf (qp : List Char) : List Char :=
  joinNL (((examInfoClasses (extractOptionD qp)).map (·.code)).intersperse [])

/-- Embeds `parseExam` (src/main.js:192) restricted to the structured model the
renderer consumes: the extracted classes and the question list (questions
with number `≥ 10`, each sub-question joined with its mark-scheme entry
and annotated with the classification and starter scaffold). -/
def parseExam (qp msT : List Char) : ParseResult :=
  { classes := examInfoClasses (extractOptionD qp)
    questions :=
      ((splitMainQuestions (extractOptionD qp)).filter
          (fun q => decide (10 ≤ digitsVal q.number))).map fun q =>
        { number := q.number
          text := q.text
          subQuestions := (parseSubQuestions q.text false).map
            (joinSub (msSubsOf msT) (examCodeOf qp) q.number) } }

-- ============== SCAN / SEARCH LEMMAS ==============

theorem startsWithL_iff (p : List Char) : ∀ l, startsWithL p l = true ↔ ∃ r, l = p ++ r := by
  induction p with
  | nil => intro l; simp [startsWithL]
  | cons a ps ih =>
    intro l
    cases l with
    | nil => simp [startsWithL]
    | cons c cs =>
      simp only [startsWithL, Bool.and_eq_true, beq_iff_eq, ih cs, List.cons_append,
        List.cons.injEq]
      constructor
      · rintro ⟨rfl, r, rfl⟩; exact ⟨r, rfl, rfl⟩
      · rintro ⟨r, rfl, rfl⟩; exact ⟨rfl, r, rfl⟩

theorem scanFrom_eq_some_iff {α : Type} {f : List Char → Option α} :
    ∀ (l : List Char) (i j : Nat) (a : α),
      scanFrom f i l = some (j, a) ↔
        ∃ d, j = i + d ∧ d ≤ l.length ∧ f (l.drop d) = some a ∧
          ∀ k < d, f (l.drop k) = none := by
  intro l
  induction l with
  | nil =>
    intro i j a
    simp only [scanFrom, Option.map_eq_some']
    constructor
    · rintro ⟨b, hb, heq⟩
      obtain ⟨h1, h2⟩ := Prod.mk.inj heq
      subst h1; subst h2
      exact ⟨0, by omega, by simp, by simpa using hb, by omega⟩
    · rintro ⟨d, rfl, hd, hf, -⟩
      have hd0 : d = 0 := by simpa using hd
      subst hd0
      exact ⟨a, by simpa using hf, rfl⟩
  | cons c rest ih =>
    intro i j a
    show (match f (c :: rest) with
          | some a' => some (i, a')
          | none => scanFrom f (i + 1) rest) = some (j, a) ↔ _
    cases hf : f (c :: rest) with
    | some a' =>
      simp only [Option.some.injEq, Prod.mk.injEq]
      constructor
      · rintro ⟨rfl, rfl⟩
        exact ⟨0, by omega, by simp, by simpa using hf, by omega⟩
      · rintro ⟨d, rfl, hd, hfd, hmin⟩
        rcases Nat.eq_zero_or_pos d with rfl | hdpos
        · simp only [List.drop_zero] at hfd
          rw [hf] at hfd
          exact ⟨by omega, Option.some.inj hfd⟩
        · have h0 := hmin 0 hdpos
          simp only [List.drop_zero] at h0
          simp [hf] at h0
    | none =>
      rw [ih (i + 1) j a]
      constructor
      · rintro ⟨d, rfl, hd, hfd, hmin⟩
        refine ⟨d + 1, by omega, by simpa using hd, by simpa using hfd, ?_⟩
        intro k hk
        cases k with
        | zero => simpa using hf
        | succ k' => simpa using hmin k' (by omega)
      · rintro ⟨d, hj, hd, hfd, hmin⟩
        rcases Nat.eq_zero_or_pos d with rfl | hdpos
        · simp only [List.drop_zero] at hfd; simp [hf] at hfd
        · obtain ⟨d', rfl⟩ : ∃ d', d = d' + 1 := ⟨d - 1, by omega⟩
          refine ⟨d', by omega, by simpa using hd, by simpa using hfd, ?_⟩
          intro k hk
          have := hmin (k + 1) (by omega)
          simpa using this

theorem scanFrom_eq_none_iff {α : Type} {f : List Char → Option α} :
    ∀ (l : List Char) (i : Nat),
      scanFrom f i l = none ↔ ∀ d ≤ l.length, f (l.drop d) = none := by
  intro l
  induction l with
  | nil =>
    intro i
    simp only [scanFrom, Option.map_eq_none']
    constructor
    · intro h d hd
      have hd0 : d = 0 := by simpa using hd
      subst hd0
      simpa using h
    · intro h; simpa using h 0 (by simp)
  | cons c rest ih =>
    intro i
    show (match f (c :: rest) with
          | some a' => some (i, a')
          | none => scanFrom f (i + 1) rest) = none ↔ _
    cases hf : f (c :: rest) with
    | some a' =>
      simp only [reduceCtorEq, false_iff, not_forall]
      refine ⟨0, ?_⟩
      simp [hf]
    | none =>
      rw [ih (i + 1)]
      constructor
      · intro h d hd
        cases d with
        | zero => simpa using hf
        | succ d' => simpa using h d' (by simpa using hd)
      · intro h d hd
        have := h (d + 1) (by simpa using hd)
        simpa using this

/-- The pattern `pat` occurs in `t` at index `i`. -/
def occursAt (pat t : List Char) (i : Nat) : Prop :=
  startsWithL pat (t.drop i) = true

instance (pat t : List Char) (i : Nat) : Decidable (occursAt pat t i) := by
  unfold occursAt; infer_instance

theorem occursAt_lt_length {pat t : List Char} {i : Nat} (hp : pat ≠ [])
    (h : occursAt pat t i) : i < t.length := by
  rw [occursAt, startsWithL_iff] at h
  obtain ⟨r, hr⟩ := h
  by_contra hlen
  rw [List.drop_eq_nil_of_le (by omega)] at hr
  cases pat with
  | nil => exact hp rfl
  | cons a ps => simp at hr

theorem indexOfFrom_eq_some_iff {pat t : List Char} {s j : Nat} (hp : pat ≠ []) :
    indexOfFrom pat t s = some j ↔
      s ≤ j ∧ occursAt pat t j ∧ ∀ k, s ≤ k → k < j → ¬occursAt pat t k := by
  unfold indexOfFrom
  constructor
  · intro h
    obtain ⟨⟨j', u⟩, hscan, hj⟩ := Option.map_eq_some'.mp h
    simp only at hj
    subst hj
    rw [scanFrom_eq_some_iff] at hscan
    obtain ⟨d, rfl, hd, hf, hmin⟩ := hscan
    rw [List.drop_drop] at hf
    refine ⟨by omega, ?_, ?_⟩
    · rw [occursAt]
      by_contra hno
      simp [hno] at hf
    · intro k hk1 hk2
      have hmk := hmin (k - s) (by omega)
      rw [List.drop_drop, show s + (k - s) = k from by omega] at hmk
      intro hocc
      rw [occursAt] at hocc
      simp [hocc] at hmk
  · rintro ⟨hs, hocc, hmin⟩
    have hjlen : j < t.length := occursAt_lt_length hp hocc
    have hkey : scanFrom (fun l => if startsWithL pat l then some () else none) s (t.drop s)
        = some (j, ()) := by
      rw [scanFrom_eq_some_iff]
      refine ⟨j - s, by omega, by simp; omega, ?_, ?_⟩
      · rw [List.drop_drop, show s + (j - s) = j from by omega]
        rw [occursAt] at hocc
        simp [hocc]
      · intro k hk
        rw [List.drop_drop]
        have hno := hmin (k + s) (by omega) (by omega)
        rw [occursAt] at hno
        have hfalse : startsWithL pat (List.drop (k + s) t) = false := by
          simpa using hno
        rw [show s + k = k + s from by omega]
        simp [hfalse]
    rw [hkey]
    rfl

theorem indexOfFrom_eq_none_iff {pat t : List Char} {s : Nat} (hp : pat ≠ []) :
    indexOfFrom pat t s = none ↔ ∀ k, s ≤ k → ¬occursAt pat t k := by
  unfold indexOfFrom
  rw [Option.map_eq_none', scanFrom_eq_none_iff]
  constructor
  · intro h k hks hocc
    have hk := occursAt_lt_length hp hocc
    have hdk := h (k - s) (by simp; omega)
    rw [List.drop_drop, show s + (k - s) = k from by omega] at hdk
    rw [occursAt] at hocc
    simp [hocc] at hdk
  · intro h d hd
    rw [List.drop_drop]
    have hno := h (d + s) (by omega)
    rw [occursAt] at hno
    have hfalse : startsWithL pat (List.drop (d + s) t) = false := by simpa using hno
    rw [show s + d = d + s from by omega]
    simp [hfalse]

/-- Claim C3 (confirmed): `extractOptionD` returns the substring starting
at the first case-insensitive occurrence of "option d" and ending just
before the first occurrence of "end of option d" at or after it, or
through end-of-text when no end marker follows; when the start marker
does not occur, the input is returned unchanged. -/
theorem extractOptionD_contract (t : List Char) :
    ((∀ i ≤ (lowerCase t).length, ¬occursAt (s2l ("option d")) (lowerCase t) i) →
        extractOptionD t = t) ∧
    ∀ s, occursAt (s2l ("option d")) (lowerCase t) s →
      (∀ j < s, ¬occursAt (s2l ("option d")) (lowerCase t) j) →
      ((∀ e, s ≤ e → ¬occursAt (s2l ("end of option d")) (lowerCase t) e) →
          extractOptionD t = t.drop s) ∧
      ∀ e, s ≤ e → occursAt (s2l ("end of option d")) (lowerCase t) e →
        (∀ j < e, s ≤ j → ¬occursAt (s2l ("end of option d")) (lowerCase t) j) →
        extractOptionD t = (t.drop s).take (e - s) := by
  have hpat1 : s2l ("option d") ≠ [] := by decide
  have hpat2 : s2l ("end of option d") ≠ [] := by decide
  cases h1 : indexOfFrom (s2l ("option d")) (lowerCase t) 0 with
  | none =>
    have hno := (indexOfFrom_eq_none_iff hpat1).mp h1
    refine ⟨fun _ => by simp [extractOptionD, h1], ?_⟩
    intro s hocc _
    exact absurd hocc (hno s (by omega))
  | some s0 =>
    have hs0 := (indexOfFrom_eq_some_iff hpat1).mp h1
    constructor
    · intro hnone
      exact absurd hs0.2.1
        (hnone s0 (le_of_lt (occursAt_lt_length hpat1 hs0.2.1)))
    · intro s hocc hmin
      have hss0 : s = s0 := by
        by_contra hne
        rcases Nat.lt_or_ge s s0 with hlt | hge
        · exact hs0.2.2 s (by omega) hlt hocc
        · exact hmin s0 (by omega) hs0.2.1
      subst hss0
      cases h2 : indexOfFrom (s2l ("end of option d")) (lowerCase t) s with
      | none =>
        have hno2 := (indexOfFrom_eq_none_iff hpat2).mp h2
        refine ⟨fun _ => by simp [extractOptionD, h1, h2], ?_⟩
        intro e hse hocce _
        exact absurd hocce (hno2 e hse)
      | some e0 =>
        have he0 := (indexOfFrom_eq_some_iff hpat2).mp h2
        constructor
        · intro hnoend
          exact absurd he0.2.1 (hnoend e0 he0.1)
        · intro e hse hocce hmine
          have hee0 : e = e0 := by
            by_contra hne
            rcases Nat.lt_or_ge e e0 with hlt | hge
            · exact he0.2.2 e hse hlt hocce
            · exact hmine e0 (by omega) he0.1 he0.2.1
          subst hee0
          simp [extractOptionD, h1, h2]

/-- Witness for C3 at a concrete document: the slice between the first
"Option D" and the following "End of Option D". -/
theorem extractOptionD_contract_witness :
    extractOptionD (s2l ("xx Option D mid End of Option D tail")) =
      s2l ("Option D mid ") :=
  ((extractOptionD_contract (s2l ("xx Option D mid End of Option D tail"))).2
      3 (by decide) (by decide)).2 16 (by decide) (by decide) (by decide)

-- ============== MARKS ANNOTATION LEMMAS ==============

theorem isJsSpace_not_digit {c : Char} (h : isJsSpace c = true) : c.isDigit = false := by
  simp only [isJsSpace, Bool.or_eq_true, decide_eq_true_eq] at h
  rcases h with ((((((((((((((((((((((((rfl | rfl) | rfl) | rfl) | rfl) | rfl) | rfl) | rfl) | rfl) | rfl) | rfl) | rfl) | rfl) | rfl) | rfl) | rfl) | rfl) | rfl) | rfl) | rfl) | rfl) | rfl) | rfl) | rfl) | rfl) <;> decide

theorem isJsSpace_ne {c x : Char} (h : isJsSpace c = true) (hx : isJsSpace x = false) :
    c ≠ x := by
  intro heq; subst heq; rw [h] at hx; cases hx

theorem takeWhile_run_append {p : Char → Bool} :
    ∀ (ds tl : List Char), (∀ c ∈ ds, p c = true) →
      (∀ c, tl.head? = some c → p c = false) →
      (ds ++ tl).takeWhile p = ds ∧ (ds ++ tl).dropWhile p = tl := by
  intro ds
  induction ds with
  | nil =>
    intro tl _ hhead
    cases tl with
    | nil => simp
    | cons c r =>
      have := hhead c rfl
      simp [List.takeWhile_cons, List.dropWhile_cons, this]
  | cons a ds ih =>
    intro tl hall hhead
    have ha : p a = true := hall a (by simp)
    have := ih tl (fun c hc => hall c (by simp [hc])) hhead
    simp [List.takeWhile_cons, List.dropWhile_cons, ha, this.1, this.2]

/-- A marks annotation of value `n` at the head of `l`: `[`, a nonempty
digit string with value `n`, then either `]` or optional whitespace
followed by `max]` — the shapes matched by `/\[(\d+)(?:\s*max)?\]/`. -/
def marksTagOn (l : List Char) (n : Nat) : Prop :=
  ∃ ds, ds ≠ [] ∧ ds.all Char.isDigit = true ∧ digitsVal ds = n ∧
    ((∃ r, l = '[' :: (ds ++ ']' :: r)) ∨
     (∃ ws r, ws.all isJsSpace = true ∧
        l = '[' :: (ds ++ (ws ++ 'm' :: 'a' :: 'x' :: ']' :: r))))

/-- A marks annotation of value `n` at index `i` of `t`. -/
def marksTagAt (t : List Char) (i n : Nat) : Prop := marksTagOn (t.drop i) n

theorem matchMarksAt_eq_some_iff {l : List Char} {n : Nat} :
    matchMarksAt l = some n ↔ marksTagOn l n := by
  constructor
  · intro h
    cases l with
    | nil => simp [matchMarksAt] at h
    | cons b rest =>
      simp only [matchMarksAt] at h
      by_cases hb : b = '['
      · subst hb
        rw [if_pos rfl] at h
        by_cases hds : rest.takeWhile Char.isDigit = []
        · rw [if_pos hds] at h; cases h
        · rw [if_neg hds] at h
          have hsplit := List.takeWhile_append_dropWhile (p := Char.isDigit) (l := rest)
          have hall : (rest.takeWhile Char.isDigit).all Char.isDigit = true := by
            rw [List.all_eq_true]
            intro c hc
            exact List.mem_takeWhile_imp hc
          by_cases hhead : (rest.dropWhile Char.isDigit).head? = some ']'
          · rw [if_pos hhead] at h
            simp only [Option.some.injEq] at h
            cases hafter : rest.dropWhile Char.isDigit with
            | nil => rw [hafter] at hhead; simp at hhead
            | cons b2 bs =>
              rw [hafter] at hhead
              simp only [List.head?_cons, Option.some.injEq] at hhead
              subst hhead
              refine ⟨rest.takeWhile Char.isDigit, hds, hall, h, Or.inl ⟨bs, ?_⟩⟩
              conv_lhs => rw [← hsplit, hafter]
          · rw [if_neg hhead] at h
            by_cases hsw : startsWithL (s2l ("max]"))
                ((rest.dropWhile Char.isDigit).dropWhile isJsSpace) = true
            · rw [if_pos hsw] at h
              simp only [Option.some.injEq] at h
              rw [startsWithL_iff] at hsw
              obtain ⟨r, hr⟩ := hsw
              refine ⟨rest.takeWhile Char.isDigit, hds, hall, h,
                Or.inr ⟨(rest.dropWhile Char.isDigit).takeWhile isJsSpace, r, ?_, ?_⟩⟩
              · rw [List.all_eq_true]
                intro c hc
                exact List.mem_takeWhile_imp hc
              · have hsplit2 := List.takeWhile_append_dropWhile (p := isJsSpace)
                  (l := rest.dropWhile Char.isDigit)
                rw [hr] at hsplit2
                conv_lhs => rw [← hsplit, ← hsplit2]
                rfl
            · rw [if_neg hsw] at h; cases h
      · rw [if_neg hb] at h; cases h
  · rintro ⟨ds, hne, hall, hval, hshape⟩
    have hallm := List.all_eq_true.mp hall
    rcases hshape with ⟨r, rfl⟩ | ⟨ws, r, hws, rfl⟩
    · have hdec := takeWhile_run_append (p := Char.isDigit) ds (']' :: r) hallm
        (by intro c hc
            simp only [List.head?_cons, Option.some.injEq] at hc
            subst hc; decide)
      simp only [matchMarksAt, if_pos rfl]
      rw [hdec.1, hdec.2, if_neg hne]
      simp [hval]
    · have hwsm := List.all_eq_true.mp hws
      have hheadnd : ∀ c, (ws ++ 'm' :: 'a' :: 'x' :: ']' :: r).head? = some c →
          Char.isDigit c = false := by
        intro c hc
        cases ws with
        | nil =>
          simp only [List.nil_append, List.head?_cons, Option.some.injEq] at hc
          subst hc; decide
        | cons w ws' =>
          simp only [List.cons_append, List.head?_cons, Option.some.injEq] at hc
          subst hc
          exact isJsSpace_not_digit (hwsm _ (by simp))
      have hdec := takeWhile_run_append (p := Char.isDigit) ds
        (ws ++ 'm' :: 'a' :: 'x' :: ']' :: r) hallm hheadnd
      have hdec2 := takeWhile_run_append (p := isJsSpace) ws
        ('m' :: 'a' :: 'x' :: ']' :: r) hwsm
        (by intro c hc
            simp only [List.head?_cons, Option.some.injEq] at hc
            subst hc; decide)
      have hh : (ws ++ 'm' :: 'a' :: 'x' :: ']' :: r).head? ≠ some ']' := by
        cases ws with
        | nil => simp
        | cons w ws' =>
          simp only [List.cons_append, List.head?_cons, ne_eq, Option.some.injEq]
          exact isJsSpace_ne (hwsm _ (by simp)) (by decide)
      simp only [matchMarksAt, if_pos rfl]
      rw [hdec.1, hdec.2, if_neg hne, if_neg hh, hdec2.2,
        if_pos (show startsWithL (s2l ("max]")) ('m' :: 'a' :: 'x' :: ']' :: r) = true
          from rfl)]
      simp [hval]

theorem marksTagOn_ne_nil {l : List Char} {n : Nat} (h : marksTagOn l n) : l ≠ [] := by
  obtain ⟨ds, -, -, -, hshape⟩ := h
  rcases hshape with ⟨r, rfl⟩ | ⟨ws, r, -, rfl⟩ <;> simp

theorem marksTagOn_lt_length {t : List Char} {i n : Nat} (h : marksTagAt t i n) :
    i < t.length := by
  have := marksTagOn_ne_nil h
  by_contra hlen
  rw [List.drop_eq_nil_of_le (by omega)] at this
  exact this rfl

theorem searchMarks_eq_some_iff {t : List Char} {n : Nat} :
    searchMarks t = some n ↔
      ∃ i, marksTagAt t i n ∧ ∀ j < i, ∀ m, ¬marksTagAt t j m := by
  unfold searchMarks
  constructor
  · intro h
    obtain ⟨⟨j, n'⟩, hscan, hn⟩ := Option.map_eq_some'.mp h
    simp only at hn
    subst hn
    rw [scanFrom_eq_some_iff] at hscan
    obtain ⟨d, rfl, hd, hf, hmin⟩ := hscan
    refine ⟨d, matchMarksAt_eq_some_iff.mp hf, ?_⟩
    intro j hj m htag
    have hj2 := hmin j hj
    rw [matchMarksAt_eq_some_iff.mpr htag] at hj2
    cases hj2
  · rintro ⟨i, htag, hmin⟩
    have hi : matchMarksAt (t.drop i) = some n := matchMarksAt_eq_some_iff.mpr htag
    have hlen : i < t.length := marksTagOn_lt_length htag
    have hscan : scanFrom matchMarksAt 0 t = some (0 + i, n) := by
      rw [scanFrom_eq_some_iff]
      refine ⟨i, rfl, by omega, hi, ?_⟩
      intro k hk
      cases hmk : matchMarksAt (t.drop k) with
      | none => rfl
      | some m => exact absurd (matchMarksAt_eq_some_iff.mp hmk) (hmin k hk m)
    rw [hscan]
    rfl

theorem searchMarks_eq_none_iff {t : List Char} :
    searchMarks t = none ↔ ∀ i m, ¬marksTagAt t i m := by
  unfold searchMarks
  rw [Option.map_eq_none', scanFrom_eq_none_iff]
  constructor
  · intro h i m htag
    have hlen := marksTagOn_lt_length htag
    have := h i (by omega)
    rw [matchMarksAt_eq_some_iff.mpr htag] at this
    cases this
  · intro h d _
    cases hmk : matchMarksAt (t.drop d) with
    | none => rfl
    | some m => exact absurd (matchMarksAt_eq_some_iff.mp hmk) (h d m)

theorem parseSubQuestions_marks_eq {t : List Char} {b : Bool} {sub : SubQ}
    (h : sub ∈ parseSubQuestions t b) : sub.marks = searchMarks sub.text := by
  unfold parseSubQuestions at h
  obtain ⟨p, hp, rfl⟩ := List.mem_map.mp h
  rfl

/-- Claim C5 (confirmed): every sub-question produced by
`parseSubQuestions` carries `marks = some n` exactly when the leftmost
marks annotation in its (unaltered) text has value `n`, and `marks =
none` (absent, not zero) exactly when the text holds no such annotation;
the annotation is located inside the returned text itself. -/
theorem parseSubQuestions_marks_spec :
    ∀ (t : List Char) (isMS : Bool) (sub : SubQ), sub ∈ parseSubQuestions t isMS →
      (∀ n, sub.marks = some n ↔
        ∃ i, marksTagAt sub.text i n ∧ ∀ j < i, ∀ m, ¬marksTagAt sub.text j m) ∧
      (sub.marks = none ↔ ∀ i m, ¬marksTagAt sub.text i m) := by
  intro t isMS sub h
  rw [parseSubQuestions_marks_eq h]
  exact ⟨fun n => searchMarks_eq_some_iff, searchMarks_eq_none_iff⟩

/-- The concrete sub-question used in the C5 witness. -/
def subC5 : SubQ := { letter := 'a', text := s2l ("Foo [3]"), marks := some 3 }

/-- Witness for C5: the sub-question parsed from "(a) Foo [3]". -/
theorem parseSubQuestions_marks_spec_witness :
    (∀ n, subC5.marks = some n ↔
      ∃ i, marksTagAt subC5.text i n ∧ ∀ j < i, ∀ m, ¬marksTagAt subC5.text j m) ∧
    (subC5.marks = none ↔ ∀ i m, ¬marksTagAt subC5.text i m) :=
  parseSubQuestions_marks_spec (s2l ("(a) Foo [3]")) false subC5 (by decide)

-- ============== JOIN LEMMAS ==============

theorem msGet_eq_none_iff {es : List (List Char × SubQ)} {k : List Char} :
    msGet es k = none ↔ ∀ e ∈ es, e.1 ≠ k := by
  unfold msGet
  rw [Option.map_eq_none', List.find?_eq_none]
  constructor
  · intro h e he
    have := h e (List.mem_reverse.mpr he)
    simpa using this
  · intro h e he
    simpa using h e (List.mem_reverse.mp he)

theorem msGet_eq_some_mem {es : List (List Char × SubQ)} {k : List Char} {m : SubQ}
    (h : msGet es k = some m) : (k, m) ∈ es := by
  unfold msGet at h
  obtain ⟨e, he, hm⟩ := Option.map_eq_some'.mp h
  have hp := List.find?_some he
  have hmem := List.mem_of_find?_eq_some he
  rw [List.mem_reverse] at hmem
  obtain ⟨e1, e2⟩ := e
  simp only [beq_iff_eq] at hp
  simp only at hm
  subst hp
  subst hm
  exact hmem

theorem find?_eq_head_filter {α : Type} (l : List α) (p : α → Bool) :
    l.find? p = (l.filter p).head? := by
  induction l with
  | nil => rfl
  | cons a l ih =>
    by_cases hpa : p a = true
    · rw [List.find?_cons_of_pos l hpa, List.filter_cons_of_pos hpa, List.head?_cons]
    · have hf : p a = false := by simpa using hpa
      rw [List.find?_cons_of_neg l (by simp [hf]), List.filter_cons_of_neg (by simp [hf]), ih]

theorem filter_reverse_eq {α : Type} (l : List α) (p : α → Bool) :
    l.reverse.filter p = (l.filter p).reverse := by
  induction l with
  | nil => rfl
  | cons a l ih =>
    by_cases hpa : p a = true
    · simp [List.filter_append, List.filter_cons, hpa, ih]
    · have hf : p a = false := by simpa using hpa
      simp [List.filter_append, List.filter_cons, hf, ih]

theorem msGet_eq_getLast_filter (es : List (List Char × SubQ)) (k : List Char) :
    msGet es k = ((es.filter fun e => e.1 == k).getLast?).map (·.2) := by
  unfold msGet
  rw [find?_eq_head_filter, filter_reverse_eq, List.head?_reverse]

theorem joinSub_letter (es : List (List Char × SubQ)) (ec num : List Char) (sub : SubQ) :
    (joinSub es ec num sub).letter = sub.letter := rfl

theorem joinSub_text (es : List (List Char × SubQ)) (ec num : List Char) (sub : SubQ) :
    (joinSub es ec num sub).text = sub.text := rfl

theorem joinSub_markScheme (es : List (List Char × SubQ)) (ec num : List Char) (sub : SubQ) :
    (joinSub es ec num sub).markScheme = joinMarkScheme (msGet es (keyOf num sub.letter)) := rfl

theorem joinSub_marks (es : List (List Char × SubQ)) (ec num : List Char) (sub : SubQ) :
    (joinSub es ec num sub).marks =
      joinMarks (msGet es (keyOf num sub.letter)) sub.marks := rfl

theorem mem_parseExam_questions {qp msT : List Char} {q : QuestionOut} :
    q ∈ (parseExam qp msT).questions ↔
      ∃ rq ∈ splitMainQuestions (extractOptionD qp), 10 ≤ digitsVal rq.number ∧
        q = { number := rq.number, text := rq.text,
              subQuestions := (parseSubQuestions rq.text false).map
                (joinSub (msSubsOf msT) (examCodeOf qp) rq.number) } := by
  unfold parseExam
  simp only [List.mem_map, List.mem_filter, decide_eq_true_eq]
  constructor
  · rintro ⟨rq, ⟨hmem, hge⟩, rfl⟩
    exact ⟨rq, hmem, hge, rfl⟩
  · rintro ⟨rq, hmem, hge, rfl⟩
    exact ⟨rq, ⟨hmem, hge⟩, rfl⟩

theorem parseExam_sub_structure {qp msT : List Char} {q : QuestionOut} {s : JoinedSub}
    (hq : q ∈ (parseExam qp msT).questions) (hs : s ∈ q.subQuestions) :
    10 ≤ digitsVal q.number ∧
    ∃ sub ∈ parseSubQuestions q.text false,
      s = joinSub (msSubsOf msT) (examCodeOf qp) q.number sub := by
  obtain ⟨rq, hmem, hge, rfl⟩ := mem_parseExam_questions.mp hq
  refine ⟨hge, ?_⟩
  obtain ⟨sub, hsub, rfl⟩ := List.mem_map.mp hs
  exact ⟨sub, hsub, rfl⟩

-- ============== CLAIMS C2, C9 ==============

/-- Claim C2 (confirmed): every Question in `parseExam`'s output has a
number parsing to an integer `≥ 10`; a question numbered "09" matches the
question-number line pattern but is excluded from the output. -/
theorem questions_number_ge_ten :
    (∀ (qp msT : List Char) (q : QuestionOut),
        q ∈ (parseExam qp msT).questions → 10 ≤ digitsVal q.number) ∧
    matchMainQ (s2l ("09.")) = some (s2l ("09")) ∧
    splitMainQuestions (s2l ("09.\n(a) Something")) =
      [{ number := s2l ("09"), text := s2l ("(a) Something") }] ∧
    (parseExam (s2l ("09.\n(a) Something")) []).questions = [] := by
  refine ⟨?_, by decide, by decide, by decide⟩
  intro qp msT q hq
  obtain ⟨rq, hmem, hge, rfl⟩ := mem_parseExam_questions.mp hq
  exact hge

/-- The question produced from the input "10.\nSome text", used in the C2
witness. -/
def qW2 : QuestionOut :=
  { number := s2l ("10"), text := s2l ("Some text"), subQuestions := [] }

/-- Witness for C2's universal part at a concrete exam. -/
theorem questions_number_ge_ten_witness : 10 ≤ digitsVal qW2.number :=
  questions_number_ge_ten.1 (s2l ("10.\nSome text")) [] qW2 (by decide)

/-- Claim C9 (confirmed): the pipeline is a pure function of the two
input texts — identical inputs yield structurally identical output, and
the coding classification is a pure function of the sub-question text. -/
theorem pipeline_deterministic :
    (∀ qp msT qp2 ms2 : List Char, qp = qp2 → msT = ms2 →
        parseExam qp msT = parseExam qp2 ms2) ∧
    (∀ t t2 : List Char, t = t2 → detectCodingQuestion t = detectCodingQuestion t2) := by
  constructor
  · rintro qp msT _ _ rfl rfl; rfl
  · rintro t _ rfl; rfl

/-- Witness for C9 at a concrete exam pair. -/
theorem pipeline_deterministic_witness :
    parseExam (s2l ("10.\n(a) Implement the method calculateTotal() [4]"))
        (s2l ("10.\n(a) Award [4]")) =
      parseExam (s2l ("10.\n(a) Implement the method calculateTotal() [4]"))
        (s2l ("10.\n(a) Award [4]")) ∧
    detectCodingQuestion (s2l ("Implement the method")) =
      detectCodingQuestion (s2l ("Implement the method")) :=
  ⟨pipeline_deterministic.1 _ _ _ _ rfl rfl, pipeline_deterministic.2 _ _ rfl⟩

-- ============== CLAIM C1 ==============

/-- The inputs of the C1 counterexample: the mark scheme's sub-question
"(a)" has empty text. -/
def c1qp : List Char := s2l ("10.\n(a) What is X? [2]")

/-- Mark-scheme document whose sub-question (a) has empty text. -/
def c1ms : List Char := s2l ("10.\n(a)")

/-- Counterexample to C1 as stated: the key `10-a` occurs in the
mark-scheme segmentation (with empty text), yet the joined sub-question's
`markScheme` is the sentinel, not that text — JavaScript `||` treats the
empty string as missing. -/
theorem c1_counterexample :
    (keyOf (s2l ("10")) 'a', ({ letter := 'a', text := [], marks := none } : SubQ))
        ∈ msSubsOf c1ms ∧
    ((parseExam c1qp c1ms).questions.map fun q =>
        q.subQuestions.map fun s => s.markScheme) = [[sentinel]] ∧
    sentinel ≠ ([] : List Char) := by decide

/-- Claim C1 (corrected): a joined sub-question's `markScheme` is the
sentinel when its key has no mark-scheme entry; when the lookup returns
an entry (which happens whenever the key occurs in the mark-scheme
segmentation), `markScheme` is that entry's text when it is non-empty and
the sentinel when it is empty. -/
theorem join_markScheme_amended :
    ∀ (qp msT : List Char) (q : QuestionOut) (s : JoinedSub),
      q ∈ (parseExam qp msT).questions → s ∈ q.subQuestions →
      ((∀ e ∈ msSubsOf msT, e.1 ≠ keyOf q.number s.letter) → s.markScheme = sentinel) ∧
      (∀ m, msGet (msSubsOf msT) (keyOf q.number s.letter) = some m →
        (keyOf q.number s.letter, m) ∈ msSubsOf msT ∧
        s.markScheme = if m.text = [] then sentinel else m.text) ∧
      ((∃ e ∈ msSubsOf msT, e.1 = keyOf q.number s.letter) →
        ∃ m, msGet (msSubsOf msT) (keyOf q.number s.letter) = some m) := by
  intro qp msT q s hq hs
  obtain ⟨-, sub, hsub, rfl⟩ := parseExam_sub_structure hq hs
  simp only [joinSub_letter, joinSub_markScheme]
  refine ⟨?_, ?_, ?_⟩
  · intro hno
    rw [msGet_eq_none_iff.mpr hno]
    rfl
  · intro m hm
    refine ⟨msGet_eq_some_mem hm, ?_⟩
    rw [hm]
    rfl
  · rintro ⟨e, he, hek⟩
    cases hmg : msGet (msSubsOf msT) (keyOf q.number sub.letter) with
    | some m => exact ⟨m, rfl⟩
    | none => exact absurd hek (msGet_eq_none_iff.mp hmg e he)

/-- The joined sub-question of the C1 witness exam. -/
def sW1 : JoinedSub :=
  { letter := 'a', text := s2l ("Q"), marks := none, markScheme := s2l ("A"),
    isCoding := false, starterCode := s2l ("// Write your code below\n\n") }

/-- The question of the C1 witness exam. -/
def qW1 : QuestionOut :=
  { number := s2l ("10"), text := s2l ("(a) Q"), subQuestions := [sW1] }

/-- Witness for the amended C1 at a concrete exam pair. -/
theorem join_markScheme_amended_witness :
    ((∀ e ∈ msSubsOf (s2l ("10.\n(a) A")), e.1 ≠ keyOf qW1.number sW1.letter) →
        sW1.markScheme = sentinel) ∧
    (∀ m, msGet (msSubsOf (s2l ("10.\n(a) A"))) (keyOf qW1.number sW1.letter) = some m →
        (keyOf qW1.number sW1.letter, m) ∈ msSubsOf (s2l ("10.\n(a) A")) ∧
        sW1.markScheme = if m.text = [] then sentinel else m.text) ∧
    ((∃ e ∈ msSubsOf (s2l ("10.\n(a) A")), e.1 = keyOf qW1.number sW1.letter) →
        ∃ m, msGet (msSubsOf (s2l ("10.\n(a) A"))) (keyOf qW1.number sW1.letter) = some m) :=
  join_markScheme_amended (s2l ("10.\n(a) Q")) (s2l ("10.\n(a) A")) qW1 sW1
    (by decide) (by decide)

-- ============== CLAIM C4 ==============

/-- Question paper of the C4 counterexample. -/
def c4qp : List Char := s2l ("10.\n(a) Do thing [4]")

/-- Mark scheme of the C4 counterexample: its sub-question parses marks 0. -/
def c4ms : List Char := s2l ("10.\n(a) Answer [0]")

/-- Counterexample to C4 as stated: the matching mark-scheme sub-question
has a parsed marks value (0), yet the joined marks is the question
paper's 4 — JavaScript `||` treats the number 0 as missing. -/
theorem c4_counterexample :
    ((msSubsOf c4ms).map fun e => (e.1, e.2.marks)) =
      [(keyOf (s2l ("10")) 'a', some 0)] ∧
    ((parseExam c4qp c4ms).questions.map fun q =>
        q.subQuestions.map fun s => s.marks) = [[some 4]] := by decide

/-- Claim C4 (corrected): the joined marks is the mark scheme's parsed
marks whenever the matching entry exists and its parsed marks is present
and nonzero; when the entry is missing, has no parsed marks, or has
parsed marks 0, the question paper's own parsed marks is used. -/
theorem join_marks_amended :
    ∀ (qp msT : List Char) (q : QuestionOut) (s : JoinedSub),
      q ∈ (parseExam qp msT).questions → s ∈ q.subQuestions →
      ∃ sub ∈ parseSubQuestions q.text false,
        s.letter = sub.letter ∧ s.text = sub.text ∧
        s.marks = joinMarks (msGet (msSubsOf msT) (keyOf q.number sub.letter)) sub.marks ∧
        (∀ m n, msGet (msSubsOf msT) (keyOf q.number sub.letter) = some m →
          m.marks = some n → n ≠ 0 → s.marks = some n) ∧
        (msGet (msSubsOf msT) (keyOf q.number sub.letter) = none → s.marks = sub.marks) ∧
        (∀ m, msGet (msSubsOf msT) (keyOf q.number sub.letter) = some m →
          m.marks = none ∨ m.marks = some 0 → s.marks = sub.marks) := by
  intro qp msT q s hq hs
  obtain ⟨-, sub, hsub, rfl⟩ := parseExam_sub_structure hq hs
  refine ⟨sub, hsub, joinSub_letter .., joinSub_text .., joinSub_marks .., ?_, ?_, ?_⟩
  · intro m n hm hmn hne
    rw [joinSub_marks, hm, joinMarks, hmn]
    simp [hne]
  · intro hm
    rw [joinSub_marks, hm]
    rfl
  · intro m hm hcase
    rw [joinSub_marks, hm]
    rcases hcase with h0 | h0 <;> rw [joinMarks, h0] <;> rfl

/-- The joined sub-question of the C4 witness exam. -/
def sW4 : JoinedSub :=
  { letter := 'a', text := s2l ("Do thing [4]"), marks := some 4,
    markScheme := s2l ("Answer [0]"), isCoding := false,
    starterCode := s2l ("// Write your code below\n\n") }

/-- The question of the C4 witness exam. -/
def qW4 : QuestionOut :=
  { number := s2l ("10"), text := s2l ("(a) Do thing [4]"), subQuestions := [sW4] }

/-- Witness for the amended C4 at a concrete exam pair. -/
theorem join_marks_amended_witness :
    ∃ sub ∈ parseSubQuestions qW4.text false,
      sW4.letter = sub.letter ∧ sW4.text = sub.text ∧
      sW4.marks = joinMarks (msGet (msSubsOf c4ms) (keyOf qW4.number sub.letter)) sub.marks ∧
      (∀ m n, msGet (msSubsOf c4ms) (keyOf qW4.number sub.letter) = some m →
        m.marks = some n → n ≠ 0 → sW4.marks = some n) ∧
      (msGet (msSubsOf c4ms) (keyOf qW4.number sub.letter) = none → sW4.marks = sub.marks) ∧
      (∀ m, msGet (msSubsOf c4ms) (keyOf qW4.number sub.letter) = some m →
        m.marks = none ∨ m.marks = some 0 → sW4.marks = sub.marks) :=
  join_marks_amended c4qp c4ms qW4 sW4 (by decide) (by decide)

-- ============== CLAIM C10 ==============

/-- Question paper of the C10 counterexample. -/
def c10qp : List Char := s2l ("10.\n(a) Q1 [3]")

/-- Mark scheme of the C10 counterexample: two sub-questions share the
key `10-a`; the later one has empty text and no marks. -/
def c10ms : List Char := s2l ("10.\n(a) Old text [5]\n(a)")

/-- Counterexample to C10 as stated: the later duplicate overwrites the
earlier in the lookup, but the joined sub-question does not receive the
last entry's text (empty → sentinel) nor its marks (none → the question
paper's 3). -/
theorem c10_counterexample :
    ((msSubsOf c10ms).map fun e => (e.1, e.2.text, e.2.marks)) =
      [(keyOf (s2l ("10")) 'a', s2l ("Old text [5]"), some 5),
       (keyOf (s2l ("10")) 'a', [], none)] ∧
    ((parseExam c10qp c10ms).questions.map fun q =>
        q.subQuestions.map fun s => (s.markScheme, s.marks)) =
      [[(sentinel, some 3)]] ∧
    sentinel ≠ s2l ("") ∧ (some 3 : Option Nat) ≠ none := by decide

/-- Claim C10 (corrected): the mark-scheme lookup returns the last entry
inserted for a key (later duplicates silently overwrite earlier ones),
and every question-paper sub-question — duplicates included, in order —
is joined against that same last entry through the join rules (text when
non-empty, else sentinel; marks when present and nonzero, else the
question paper's own). -/
theorem join_last_entry :
    (∀ (msT k : List Char),
        msGet (msSubsOf msT) k =
          (((msSubsOf msT).filter fun e => e.1 == k).getLast?).map (·.2)) ∧
    (∀ (qp msT : List Char) (q : QuestionOut), q ∈ (parseExam qp msT).questions →
        q.subQuestions = (parseSubQuestions q.text false).map
          (joinSub (msSubsOf msT) (examCodeOf qp) q.number)) := by
  constructor
  · intro msT k
    exact msGet_eq_getLast_filter _ _
  · intro qp msT q hq
    obtain ⟨rq, hmem, hge, rfl⟩ := mem_parseExam_questions.mp hq
    rfl

/-- The joined sub-question of the C10 witness exam. -/
def sW10 : JoinedSub :=
  { letter := 'a', text := s2l ("Q1 [3]"), marks := some 3,
    markScheme := sentinel, isCoding := false,
    starterCode := s2l ("// Write your code below\n\n") }

/-- The question of the C10 witness exam. -/
def qW10 : QuestionOut :=
  { number := s2l ("10"), text := s2l ("(a) Q1 [3]"), subQuestions := [sW10] }

/-- Witness for the amended C10 at a concrete exam pair. -/
theorem join_last_entry_witness :
    msGet (msSubsOf c10ms) (keyOf (s2l ("10")) 'a') =
      (((msSubsOf c10ms).filter fun e => e.1 == keyOf (s2l ("10")) 'a').getLast?).map (·.2) ∧
    qW10.subQuestions = (parseSubQuestions qW10.text false).map
      (joinSub (msSubsOf c10ms) (examCodeOf c10qp) qW10.number) :=
  ⟨join_last_entry.1 c10ms (keyOf (s2l ("10")) 'a'),
   join_last_entry.2 c10qp c10ms qW10 (by decide)⟩

-- ============== CLAIM C6 ==============

/-- First line of the Car class block in multi-line layout. -/
def carLine1 : List Char := s2l ("public class Car \x7b")

/-- Second line of the Car class block. -/
def carLine2 : List Char := s2l ("    private String model;")

/-- Closing line of the Car class block. -/
def carLine3 : List Char := s2l ("\x7d")

/-- The three-line Car class block. -/
def carBlock : List (List Char) := [carLine1, carLine2, carLine3]

/-- The artifact the extractor emits for the Car block: the three lines
verbatim, rejoined with newlines. -/
def carArtifact : ClassArtifact := { name := s2l ("Car"), code := joinNL carBlock }

/-- Processing the three block lines from any state emits the artifact
and resets the state: the header line always opens a fresh block (with
depth reset to 0), and the closing-brace line closes it. -/
theorem ejcs_block_step (post : List (List Char))
    (cur : Option (List Char × List (List Char))) (depth : Int) :
    ejcsAux (carBlock ++ post) cur depth =
      flushOpen cur ++ carArtifact :: ejcsAux post none 0 := rfl

/-- One extra leading line preserves membership of the artifact, whatever
the line and the running state. -/
theorem ejcs_mem_extend (p : List Char) (rest : List (List Char))
    (cur : Option (List Char × List (List Char))) (depth : Int)
    (h : ∀ cur' d', carArtifact ∈ ejcsAux rest cur' d') :
    carArtifact ∈ ejcsAux (p :: rest) cur depth := by
  simp only [ejcsAux]
  cases hcs : matchClassStart (jsTrim p) with
  | some nm =>
    simp only
    refine List.mem_append_right _ ?_
    split
    · exact List.mem_cons_of_mem _ (h _ _)
    · exact h _ _
  | none =>
    cases cur with
    | none => exact h _ _
    | some c =>
      simp only
      split
      · exact List.mem_cons_of_mem _ (h _ _)
      · exact h _ _

/-- Claim C6 (corrected, universal part): whenever the line decomposition
of the input contains the three-line Car block — header, field line,
closing brace on its own line — the extractor's output contains exactly
those lines, rejoined verbatim, as a CodeArtifact. -/
theorem car_block_extracted :
    ∀ (t : List Char) (pre post : List (List Char)),
      splitLines t = pre ++ (carBlock ++ post) →
      carArtifact ∈ extractJavaClassesStructured t := by
  intro t pre post hsplit
  unfold extractJavaClassesStructured
  rw [hsplit]
  have key : ∀ (pre : List (List Char)) (cur : Option (List Char × List (List Char)))
      (depth : Int), carArtifact ∈ ejcsAux (pre ++ (carBlock ++ post)) cur depth := by
    intro pre
    induction pre with
    | nil =>
      intro cur depth
      rw [List.nil_append, ejcs_block_step]
      exact List.mem_append_right _ (List.mem_cons_self _ _)
    | cons p pre ih =>
      intro cur depth
      rw [List.cons_append]
      exact ejcs_mem_extend p _ cur depth fun cur' d' => ih cur' d'
  exact key pre none 0

/-- Witness for the amended C6: the block alone, in three-line layout. -/
theorem car_block_extracted_witness :
    carArtifact ∈ extractJavaClassesStructured
      (s2l ("public class Car \x7b\n    private String model;\n\x7d")) :=
  car_block_extracted _ [] [] (by decide)

/-- The one-line form of the Car block from the claim's scenario. -/
def c6line : List Char := s2l ("public class Car \x7b private String model; \x7d")

/-- Counterexample to C6 as stated: a subsection consisting of the
verbatim one-line block yields no CodeArtifact at all — the extractor
only closes a block on a line that is exactly a closing brace, and a
block still open at end of input is kept only past three lines. -/
theorem c6_counterexample :
    extractJavaClassesStructured c6line = [] ∧ examInfoClasses c6line = [] := by
  decide

-- ============== CLAIM C7 ==============

/-- The UML-only input of the C7 scenario. -/
def c7text : List Char := s2l ("Car\n- model: String\n- year: integer")

/-- The skeleton the pipeline synthesizes for the C7 scenario: the two
fields (with `integer` mapped to `int`), a no-argument constructor, and
comments only otherwise — no other methods. -/
def c7code : List Char :=
  s2l ("public class Car \x7b\n\n    // Instance variables\n    private String model;\n    private int year;\n\n    // Default constructor\n    public Car() \x7b\n        // Initialize instance variables\n    \x7d\n\n    // Accessor and mutator methods go here\n    // (You need to write these as part of the questions)\n\n\x7d\n")

set_option maxRecDepth 4000 in
/-- Claim C7 (confirmed): for the UML-only input, no verbatim class is
found, and the code extractor returns exactly one synthesized class
`Car` whose body contains `private String model;`, `private int year;`
and a no-argument constructor (and, by the exact equality, nothing
else). -/
theorem uml_skeleton_scenario :
    extractJavaClassesStructured c7text = [] ∧
    examInfoClasses c7text = [{ name := s2l ("Car"), code := c7code }] ∧
    (indexOfFrom (s2l ("private String model;")) c7code 0).isSome ∧
    (indexOfFrom (s2l ("private int year;")) c7code 0).isSome ∧
    (indexOfFrom (s2l ("public Car() \x7b")) c7code 0).isSome := by
  decide

-- ============== CLAIM C8 ==============

/-- Claim C8 (confirmed): `extractStarterCode` applies its patterns in
the fixed order accessor (two regexes), mutator (two regexes), generic
method, class-with-extends, plain class; the first match yields a
one-line scaffold naming that method or class, and with no match the
generic scaffold is returned.  For a text mentioning
`method calculateTotal()` the scaffold references `calculateTotal`. -/
theorem starter_code_dispatch :
    (∀ (t ec w : List Char), searchPat matchAccessor1 t = some w →
        extractStarterCode t ec = methodScaffold w) ∧
    (∀ (t ec w : List Char), searchPat matchAccessor1 t = none →
        searchPat matchMethodGet t = some w →
        extractStarterCode t ec = methodScaffold w) ∧
    (∀ (t ec w : List Char), searchPat matchAccessor1 t = none →
        searchPat matchMethodGet t = none →
        searchPat matchMutator1 t = some w →
        extractStarterCode t ec = methodScaffold w) ∧
    (∀ (t ec w : List Char), searchPat matchAccessor1 t = none →
        searchPat matchMethodGet t = none →
        searchPat matchMutator1 t = none →
        searchPat matchMethodSet t = some w →
        extractStarterCode t ec = methodScaffold w) ∧
    (∀ (t ec w : List Char), searchPat matchAccessor1 t = none →
        searchPat matchMethodGet t = none →
        searchPat matchMutator1 t = none →
        searchPat matchMethodSet t = none →
        searchPat matchMethodGeneric t = some w →
        extractStarterCode t ec = methodScaffold w) ∧
    (∀ (t ec w : List Char), searchPat matchAccessor1 t = none →
        searchPat matchMethodGet t = none →
        searchPat matchMutator1 t = none →
        searchPat matchMethodSet t = none →
        searchPat matchMethodGeneric t = none →
        searchPat matchClassExt t = some w →
        extractStarterCode t ec = classScaffold w) ∧
    (∀ (t ec w : List Char), searchPat matchAccessor1 t = none →
        searchPat matchMethodGet t = none →
        searchPat matchMutator1 t = none →
        searchPat matchMethodSet t = none →
        searchPat matchMethodGeneric t = none →
        searchPat matchClassExt t = none →
        searchPat matchClassPlain t = some w →
        extractStarterCode t ec = classScaffold w) ∧
    (∀ (t ec : List Char), searchPat matchAccessor1 t = none →
        searchPat matchMethodGet t = none →
        searchPat matchMutator1 t = none →
        searchPat matchMethodSet t = none →
        searchPat matchMethodGeneric t = none →
        searchPat matchClassExt t = none →
        searchPat matchClassPlain t = none →
        extractStarterCode t ec = s2l ("// Write your code below\n\n")) ∧
    extractStarterCode
        (s2l ("Implement the method calculateTotal() that returns the total.")) [] =
      s2l ("// Write your calculateTotal() method below\n\n") := by
  refine ⟨?_, ?_, ?_, ?_, ?_, ?_, ?_, ?_, by decide⟩
  · intro t ec w h1
    simp [extractStarterCode, orO, h1]
  · intro t ec w h1 h2
    simp [extractStarterCode, orO, h1, h2]
  · intro t ec w h1 h2 h3
    simp [extractStarterCode, orO, h1, h2, h3]
  · intro t ec w h1 h2 h3 h4
    simp [extractStarterCode, orO, h1, h2, h3, h4]
  · intro t ec w h1 h2 h3 h4 h5
    simp [extractStarterCode, orO, h1, h2, h3, h4, h5]
  · intro t ec w h1 h2 h3 h4 h5 h6
    simp [extractStarterCode, orO, h1, h2, h3, h4, h5, h6]
  · intro t ec w h1 h2 h3 h4 h5 h6 h7
    simp [extractStarterCode, orO, h1, h2, h3, h4, h5, h6, h7]
  · intro t ec h1 h2 h3 h4 h5 h6 h7
    simp [extractStarterCode, orO, h1, h2, h3, h4, h5, h6, h7]

/-- Witness for C8: the accessor pattern fires first and names the
mentioned accessor method. -/
theorem starter_code_dispatch_witness :
    extractStarterCode (s2l ("Construct the accessor method getModel()")) [] =
      methodScaffold (s2l ("getModel")) :=
  starter_code_dispatch.1 (s2l ("Construct the accessor method getModel()")) []
    (s2l ("getModel")) (by decide)
